import Mathlib

/-!
# Verification of PyConfigFiles (`pyConfigFiles/base.py`)

A shallow embedding of the repository's single source file and proofs about
its behaviour.  The embedding covers:

* `calculate_hash` — SHA-256 of a file's bytes, read in 4096-byte chunks and
  fed to an incremental `hashlib` digest.  SHA-256 itself is implemented in
  full (FIPS 180-4) over `Nat` with explicit `% 2^32` truncation; the
  `hashlib` streaming interface is modelled by its documented semantics: the
  digest of the concatenation of all bytes fed to `update`.
* the process-wide registry `l`, `add_function`, and `import_from_filepath` —
  a loaded file is modelled by the byte content it is hashed on together with
  the configuration functions its top-level code registers while executing
  and whether that execution raises after those registrations.
* `base.add_modules` — the two-phase loop: hash/skip/load into the dict `fs`
  while appending digests to `self.__files__`, then invoke every collected
  function with the host as sole argument.
* `LockAttributesMeta` / `base.__setattr__` — attribute locking: an instance
  is a class-name set plus an insertion-ordered instance dictionary, and
  `_locked` is an ordinary instance attribute set by the metaclass after
  `__init__`, exactly as in the source.

Python exceptions are modelled with explicit error values; since Python
mutates objects in place, operations return the object state reached at the
moment an exception propagates together with an optional error.
-/

set_option maxRecDepth 400000

namespace PyConfigFiles

/-! ## SHA-256 (the `hashlib.sha256` primitive used by `calculate_hash`) -/

/-- Truncation to a 32-bit word. -/
def w32 (n : Nat) : Nat := n % 4294967296

/-- 32-bit right rotation by `n`. -/
def rotr (n x : Nat) : Nat := w32 ((x >>> n) ||| (x <<< (32 - n)))

/-- SHA-256 round constants (fractional parts of cube roots of the first 64
primes, FIPS 180-4 §4.2.2). -/
def shaK : List Nat :=
  [1116352408, 1899447441, 3049323471, 3921009573, 961987163, 1508970993,
   2453635748, 2870763221, 3624381080, 310598401, 607225278, 1426881987,
   1925078388, 2162078206, 2614888103, 3248222580, 3835390401, 4022224774,
   264347078, 604807628, 770255983, 1249150122, 1555081692, 1996064986,
   2554220882, 2821834349, 2952996808, 3210313671, 3336571891, 3584528711,
   113926993, 338241895, 666307205, 773529912, 1294757372, 1396182291,
   1695183700, 1986661051, 2177026350, 2456956037, 2730485921, 2820302411,
   3259730800, 3345764771, 3516065817, 3600352804, 4094571909, 275423344,
   430227734, 506948616, 659060556, 883997877, 958139571, 1322822218,
   1537002063, 1747873779, 1955562222, 2024104815, 2227730452, 2361852424,
   2428436474, 2756734187, 3204031479, 3329325298]

/-- SHA-256 initial hash value (fractional parts of square roots of the first
8 primes). -/
def shaH0 : List Nat :=
  [1779033703, 3144134277, 1013904242, 2773480762,
   1359893119, 2600822924, 528734635, 1541459225]

def bigSigma0 (x : Nat) : Nat := rotr 2 x ^^^ rotr 13 x ^^^ rotr 22 x

def bigSigma1 (x : Nat) : Nat := rotr 6 x ^^^ rotr 11 x ^^^ rotr 25 x

def smallSigma0 (x : Nat) : Nat := rotr 7 x ^^^ rotr 18 x ^^^ (x >>> 3)

def smallSigma1 (x : Nat) : Nat := rotr 17 x ^^^ rotr 19 x ^^^ (x >>> 10)

/-- `Ch(x,y,z) = (x ∧ y) ⊕ (¬x ∧ z)`; the complement of a 32-bit word is
xor with `0xffffffff`. -/
def chF (x y z : Nat) : Nat := (x &&& y) ^^^ ((x ^^^ 0xffffffff) &&& z)

def majF (x y z : Nat) : Nat := (x &&& y) ^^^ (x &&& z) ^^^ (y &&& z)

/-- Big-endian encoding of `n` on `k` bytes. -/
def natToBytesBE (k n : Nat) : List Nat :=
  (List.range k).map (fun i => (n >>> (8 * (k - 1 - i))) % 256)

/-- FIPS 180-4 padding: append `0x80`, then zeros up to 56 mod 64, then the
bit length on 8 bytes. -/
def padMessage (msg : List Nat) : List Nat :=
  msg ++ [0x80] ++ List.replicate ((119 - msg.length % 64) % 64) 0
      ++ natToBytesBE 8 (msg.length * 8)

/-- Group bytes, 4 at a time big-endian, into 32-bit words. -/
def bytesToWords : List Nat → List Nat
  | a :: b :: c :: d :: rest =>
      ((a % 256) <<< 24 ||| (b % 256) <<< 16 ||| (c % 256) <<< 8 ||| d % 256)
        :: bytesToWords rest
  | _ => []

/-- Chunking with an explicit element accumulator, structurally recursive on
the input list (`k` counts the room left in the current chunk). -/
def chunkAux (n : Nat) : List β → List β → Nat → List (List β)
  | [], acc, _ => if acc.isEmpty then [] else [acc.reverse]
  | x :: xs, acc, k =>
      if k ≤ 1 then (x :: acc).reverse :: chunkAux n xs [] n
      else chunkAux n xs (x :: acc) (k - 1)

/-- Split a list into consecutive chunks of `n` elements (last one possibly
shorter).  For `n = 0` the result is empty: this mirrors Python's
`iter(lambda: file.read(0), b'')`, which stops at once because `read(0)`
returns the empty sentinel. -/
def readChunks (n : Nat) (l : List β) : List (List β) :=
  if n = 0 then [] else chunkAux n l [] n

/-- Extend a 16-word block to the 64-word message schedule. -/
def extendSchedule (w : List Nat) : List Nat :=
  (List.range 48).foldl
    (fun ws _ =>
      let m := ws.length
      ws ++ [w32 (smallSigma1 (ws.getD (m - 2) 0) + ws.getD (m - 7) 0 +
                  smallSigma0 (ws.getD (m - 15) 0) + ws.getD (m - 16) 0)])
    w

/-- One SHA-256 round on the working variables `[a,b,c,d,e,f,g,h]`. -/
def roundStep (ws : List Nat) (st : List Nat) (i : Nat) : List Nat :=
  match st with
  | [a, b, c, d, e, f, g, h] =>
      let t1 := w32 (h + bigSigma1 e + chF e f g + shaK.getD i 0 + ws.getD i 0)
      let t2 := w32 (bigSigma0 a + majF a b c)
      [w32 (t1 + t2), a, b, c, w32 (d + t1), e, f, g]
  | _ => st

/-- Compress one 16-word block into the running hash state. -/
def compress (H : List Nat) (block : List Nat) : List Nat :=
  let st := (List.range 64).foldl (roundStep (extendSchedule block)) H
  List.zipWith (fun x y => w32 (x + y)) H st

/-- SHA-256 of a byte list, as eight 32-bit words. -/
def sha256words (msg : List Nat) : List Nat :=
  (readChunks 16 (bytesToWords (padMessage msg))).foldl compress shaH0

def hexChar (n : Nat) : Char :=
  if n < 10 then Char.ofNat (48 + n) else Char.ofNat (87 + n % 16)

def wordToHex (n : Nat) : List Char :=
  (List.range 8).map (fun i => hexChar ((n >>> (4 * (7 - i))) % 16))

/-- `hexdigest()`: the lowercase hex string of the SHA-256 digest. -/
def sha256hex (msg : List Nat) : String :=
  ⟨((sha256words msg).map wordToHex).flatten⟩

/-! ## `calculate_hash`: chunked reading fed to the incremental digest -/

/-- `hash_algo.update(chunk)`: the incremental-digest state is the byte
stream fed so far (`hashlib`'s documented semantics: the final digest is the
hash of the concatenation of everything passed to `update`). -/
def hashlib_update (s chunk : List Nat) : List Nat := s ++ chunk

/-- The digest `calculate_hash` computes when the file is read in chunks of
`chunkSize` bytes: feed each chunk to `update`, then take `hexdigest()`. -/
def hashWithChunk (chunkSize : Nat) (content : List Nat) : String :=
  sha256hex ((readChunks chunkSize content).foldl hashlib_update [])

/-- The digest of a file whose bytes are `content`: the source reads in
chunks of 4096 bytes. -/
def calculate_hash_content (content : List Nat) : String :=
  hashWithChunk 4096 content

/-! ## Errors, hosts, configuration functions, loadable files

A Python exception is represented by an explicit error value.  Because
Python mutates objects in place, stateful operations below return the state
reached at the moment an exception propagates, paired with an optional
error. -/

inductive PyErr
  | ioError
  | loadError
  | attributeError
  | funcError
  deriving DecidableEq, Repr

/-- A `base` instance as the configuration machinery sees it: the
`self.__files__` list of applied hex digests, plus the rest of the object's
attribute state, kept abstract as `α`. -/
structure Host (α : Type) where
  files : List String
  state : α
  deriving DecidableEq, Repr

/-- A configuration function: called with the host as sole argument, it
mutates the host in place and may raise. -/
abbrev ConfigFun (α : Type) : Type := Host α → Host α × Option PyErr

/-- A loadable configuration file: the byte content it is hashed on, the
configuration functions its top-level code registers (in definition order)
while it executes, and whether execution raises after those registrations
(a file that raises between two definitions is modelled with `funs` being
the functions defined before the raise; a file with a syntax error is
modelled with `funs = []` and `raises = true`). -/
structure FileData (α : Type) where
  content : List Nat
  funs : List (ConfigFun α)
  raises : Bool

/-- The filesystem: a partial map from paths to files. -/
abbrev FileSys (α : Type) : Type := String → Option (FileData α)

/-- `calculate_hash(file_path)`: `open` raises `IOError` when the file is
missing; otherwise the chunked SHA-256 hexdigest of its bytes. -/
def calculate_hash (fs : FileSys α) (path : String) : Except PyErr String :=
  match fs path with
  | none => .error .ioError
  | some fd => .ok (calculate_hash_content fd.content)

/-! ## The process-wide registry `l` and the module loader -/

/-- The global list `l` of pending registrations. -/
abbrev Registry (α : Type) : Type := List (ConfigFun α)

/-- `add_function(name, function)`: `l.append(function)`. -/
def add_function (_name : String) (function : ConfigFun α) (reg : Registry α) :
    Registry α :=
  reg ++ [function]

/-- Executing a module's top level registers each `@configuration`-decorated
function, in definition order, via `add_function` (the decorator passes the
defining file's name and returns the function unchanged). -/
def exec_registrations (filename : String) (funs : List (ConfigFun α)) :
    Registry α :=
  funs.foldl (fun r g => add_function filename g r) []

/-- Python's `s.split(sep)` for a single-character separator, on the
character list of the string. -/
def splitOnChar (sep : Char) : List Char → List (List Char)
  | [] => [[]]
  | c :: cs =>
    match splitOnChar sep cs with
    | [] => [[]]
    | h :: t => if c = sep then [] :: h :: t else (c :: h) :: t

/-- `module_name = filepath.split('/')[-1].split('.')[0]`. -/
def module_name (filepath : String) : String :=
  ⟨(splitOnChar '.' ((splitOnChar '/' filepath.data).getLastD [])).headD []⟩

/-- `import_from_filepath(filepath)`.  Returns the registry state the call
leaves behind and either the collected function list or the error raised.

* `l.clear()` at entry: the incoming registry contents are discarded.
* A missing file makes `exec_module` raise `FileNotFoundError` (an
  `IOError`) with nothing registered.
* Executing the module registers the file's functions; if execution then
  raises, the error propagates before `ret = l.copy(); l.clear()`, so the
  registrations made before the raise are left in the registry.
* On success the collected copy is returned and the registry is cleared. -/
def import_from_filepath (fs : FileSys α) (filepath : String)
    (_reg : Registry α) : Registry α × Except PyErr (List (ConfigFun α)) :=
  let _module_name := module_name filepath
  match fs filepath with
  | none => ([], .error .ioError)
  | some fd =>
    let regAfterExec : Registry α := exec_registrations filepath fd.funs
    if fd.raises then (regAfterExec, .error .loadError)
    else ([], .ok regAfterExec)

/-! ## `base.add_modules` -/

def startsWithSlash (s : String) : Bool := s.data.head? = some '/'

def endsWithSlash (s : String) : Bool := s.data.getLast? = some '/'

/-- `os.path.join(dir, f)` for POSIX paths (two arguments). -/
def os_path_join (dir f : String) : String :=
  if startsWithSlash f then f
  else if dir = "" then f
  else if endsWithSlash dir then dir ++ f
  else dir ++ "/" ++ f

/-- The local dict `fs = {}` of `add_modules`, keyed by resolved path, in
insertion order. -/
abbrev Fdict (α : Type) : Type := List (String × List (ConfigFun α))

/-- Python dict assignment `d[k] = v`: updates the value in place when the
key exists (keeping its position), otherwise appends. -/
def dictInsert (k : String) (v : β) : List (String × β) → List (String × β)
  | [] => [(k, v)]
  | (k', v') :: t => if k' = k then (k, v) :: t else (k', v') :: dictInsert k v t

/-- Invoke functions sequentially on the host; an exception stops the run
and propagates, keeping the mutations made so far. -/
def run_funs : List (ConfigFun α) → Host α → Host α × Option PyErr
  | [], h => (h, none)
  | f :: rest, h =>
    match f h with
    | (h', none) => run_funs rest h'
    | (h', some e) => (h', some e)

/-- The second loop of `add_modules`: `for file in fs.keys(): for fun in
fs[file]: fun(self)`. -/
def apply_phase : Fdict α → Host α → Host α × Option PyErr
  | [], h => (h, none)
  | (_, funs) :: rest, h =>
    match run_funs funs h with
    | (h', none) => apply_phase rest h'
    | (h', some e) => (h', some e)

/-- The first loop of `add_modules`: for each entry, resolve the path, hash
it (`IOError` stops the loop), skip it when the digest is already in
`self.__files__`, otherwise load it into the dict and append the digest.
The registry is threaded through the loads.  Returns the host, registry and
dict reached, plus the error that stopped the loop, if any. -/
def add_modules_loop (fs : FileSys α) (dir : String) :
    List String → Host α → Registry α → Fdict α →
      Host α × Registry α × Fdict α × Option PyErr
  | [], host, reg, acc => (host, reg, acc, none)
  | f :: rest, host, reg, acc =>
    let new_path := os_path_join dir f
    match calculate_hash fs new_path with
    | .error e => (host, reg, acc, some e)
    | .ok file_hash =>
      if file_hash ∈ host.files then
        add_modules_loop fs dir rest host reg acc
      else
        match import_from_filepath fs new_path reg with
        | (reg', .error e) => (host, reg', acc, some e)
        | (reg', .ok funs) =>
          add_modules_loop fs dir rest
            { host with files := host.files ++ [file_hash] }
            reg' (dictInsert new_path funs acc)

/-- `base.add_modules(self, files)`: run the load loop with an empty dict;
if it raised, propagate; otherwise run the apply phase on the collected
dict.  `dir` is the directory of the caller's source file (taken from the
caller's frame in the source). -/
def add_modules (fs : FileSys α) (dir : String) (host : Host α)
    (files : List String) (reg : Registry α) :
    Host α × Registry α × Option PyErr :=
  match add_modules_loop fs dir files host reg [] with
  | (h, r, _, some e) => (h, r, some e)
  | (h, r, acc, none) =>
    match apply_phase acc h with
    | (h', e) => (h', r, e)

/-! ## `LockAttributesMeta` and attribute locking

An object is its class's attribute-name set plus its insertion-ordered
instance dictionary.  `_locked` is an ordinary instance attribute that the
metaclass assigns after `__init__`, exactly as in the source; the lock test
is `getattr(self, '_locked', False)`, which reads the instance dictionary
and applies Python truthiness. -/

inductive PyVal
  | vBool : Bool → PyVal
  | vNat : Nat → PyVal
  | vStr : String → PyVal
  | vList : List String → PyVal
  deriving DecidableEq, Repr

/-- Python truthiness of a value. -/
def truthy : PyVal → Bool
  | .vBool b => b
  | .vNat n => n != 0
  | .vStr s => s != ""
  | .vList l => !l.isEmpty

/-- Python dict lookup. -/
def dictLookup (k : String) : List (String × β) → Option β
  | [] => none
  | (k', v) :: t => if k' = k then some v else dictLookup k t

structure PyObj where
  cls : List String
  attrs : List (String × PyVal)
  deriving DecidableEq, Repr

/-- `hasattr(self, key)`: the name is in the instance dictionary or defined
on the class (methods and class-level attributes included). -/
def hasattr (o : PyObj) (k : String) : Bool :=
  (dictLookup k o.attrs).isSome || o.cls.contains k

/-- `getattr(self, '_locked', False)` for classes that do not define
`_locked` at class level (true of every class in the source). -/
def getattr_locked (o : PyObj) : Bool :=
  match dictLookup "_locked" o.attrs with
  | some v => truthy v
  | none => false

/-- `base.__setattr__`: refuse new names once locked, otherwise assign. -/
def setattr (o : PyObj) (key : String) (value : PyVal) : Except PyErr PyObj :=
  if getattr_locked o && !hasattr o key then .error .attributeError
  else .ok { o with attrs := dictInsert key value o.attrs }

/-- `LockAttributesMeta.__call__`: create the instance, run `__init__`
(modelled as the sequence of attribute assignments it performs, each routed
through `__setattr__`), then `instance._locked = True`, also routed through
`__setattr__`. -/
def constructLocked (cls : List String) (init : List (String × PyVal)) :
    Except PyErr PyObj := do
  let o ← init.foldlM (fun o kv => setattr o kv.1 kv.2) (PyObj.mk cls [])
  setattr o "_locked" (.vBool true)

/-- The names defined on class `base` itself. -/
def baseCls : List String := ["__init__", "__setattr__", "add_modules"]

/-- `base.__init__`: `self.__files__ = []`. -/
def baseInit : List (String × PyVal) := [("__files__", .vList [])]

/-! ## Specification-side description of the load loop

`loadedFiles` follows the spec's description of steps 2–3 of `apply`
(§4.6): walk the given file names with the growing digest list `seen`,
skipping files whose digest is already present, and stop at the first file
whose hashing or load fails.  Each emitted entry is the resolved path, the
digest recorded for it, and the configuration functions collected from it.
The theorems below compare `add_modules` against this description. -/
def loadedFiles (fs : FileSys α) (dir : String) (seen : List String) :
    List String → List (String × String × List (ConfigFun α))
  | [] => []
  | f :: rest =>
    match fs (os_path_join dir f) with
    | none => []
    | some fd =>
      if calculate_hash_content fd.content ∈ seen then
        loadedFiles fs dir seen rest
      else if fd.raises then []
      else
        (os_path_join dir f, calculate_hash_content fd.content, fd.funs)
          :: loadedFiles fs dir (seen ++ [calculate_hash_content fd.content]) rest

/-! ## Chunking and streaming lemmas -/

theorem chunkAux_flatten (n : Nat) (l : List β) :
    ∀ (acc : List β) (k : Nat), (chunkAux n l acc k).flatten = acc.reverse ++ l := by
  induction l with
  | nil => intro acc k; cases acc <;> simp [chunkAux]
  | cons x xs ih =>
    intro acc k
    by_cases hk : k ≤ 1 <;> simp [chunkAux, hk, ih]

theorem readChunks_flatten (n : Nat) (hn : n ≠ 0) (l : List β) :
    (readChunks n l).flatten = l := by
  simp [readChunks, hn, chunkAux_flatten]

theorem foldl_hashlib_update (chunks : List (List Nat)) :
    ∀ s : List Nat, chunks.foldl hashlib_update s = s ++ chunks.flatten := by
  induction chunks with
  | nil => intro s; simp
  | cons c cs ih => intro s; simp [hashlib_update, ih]

/-- Chunk-size independence: reading in chunks of any positive size feeds
the same byte stream to the digest. -/
theorem hashWithChunk_eq (n : Nat) (hn : n ≠ 0) (content : List Nat) :
    hashWithChunk n content = sha256hex content := by
  rw [hashWithChunk, foldl_hashlib_update, List.nil_append,
    readChunks_flatten n hn]

theorem calculate_hash_content_eq (content : List Nat) :
    calculate_hash_content content = sha256hex content :=
  hashWithChunk_eq 4096 (by decide) content

/-! ## Registry lemmas -/

theorem foldl_add_function (fn : String) (funs : List (ConfigFun α)) :
    ∀ acc : Registry α,
      funs.foldl (fun r g => add_function fn g r) acc = acc ++ funs := by
  induction funs with
  | nil => intro acc; simp
  | cons g gs ih =>
    intro acc
    rw [List.foldl_cons, ih]
    simp [add_function]

theorem exec_registrations_eq (fn : String) (funs : List (ConfigFun α)) :
    exec_registrations fn funs = funs := by
  simp [exec_registrations, foldl_add_function]

/-! ## Dict lemmas -/

theorem dictLookup_insert_self (k : String) (v : β) (d : List (String × β)) :
    dictLookup k (dictInsert k v d) = some v := by
  induction d with
  | nil => simp [dictInsert, dictLookup]
  | cons kv t ih =>
    obtain ⟨k', v'⟩ := kv
    by_cases h : k' = k <;> simp [dictInsert, dictLookup, h, ih]

theorem dictLookup_insert_ne (k k' : String) (hne : k' ≠ k) (v : β)
    (d : List (String × β)) :
    dictLookup k (dictInsert k' v d) = dictLookup k d := by
  induction d with
  | nil => simp [dictInsert, dictLookup, hne]
  | cons kv t ih =>
    obtain ⟨k₀, v₀⟩ := kv
    by_cases h : k₀ = k'
    · subst h; simp [dictInsert, dictLookup, hne]
    · by_cases h2 : k₀ = k <;>
        simp [dictInsert, dictLookup, h, h2, ih, Ne.symm hne]

theorem dictLookup_insert_isSome (k k' : String) (v : β)
    (d : List (String × β)) (h : (dictLookup k d).isSome = true) :
    (dictLookup k (dictInsert k' v d)).isSome = true := by
  by_cases he : k' = k
  · subst he; simp [dictLookup_insert_self]
  · rwa [dictLookup_insert_ne k k' he]

theorem dictInsert_of_notMem (k : String) (v : β) (d : List (String × β))
    (h : k ∉ d.map Prod.fst) :
    dictInsert k v d = d ++ [(k, v)] := by
  induction d with
  | nil => simp [dictInsert]
  | cons kv t ih =>
    obtain ⟨k₀, v₀⟩ := kv
    simp only [List.map_cons, List.mem_cons] at h
    push_neg at h
    simp [dictInsert, h.1, ih h.2, Ne.symm h.1]

/-! ## `run_funs` and `apply_phase` lemmas -/

theorem run_funs_append_ok (a b : List (ConfigFun α)) (h h₁ : Host α)
    (ha : run_funs a h = (h₁, none)) :
    run_funs (a ++ b) h = run_funs b h₁ := by
  induction a generalizing h with
  | nil =>
    simp [run_funs] at ha
    subst ha
    simp
  | cons f fs ih =>
    simp only [run_funs, List.cons_append] at ha ⊢
    cases hf : f h with
    | mk h' e? =>
      rw [hf] at ha
      cases e? with
      | none => exact ih h' ha
      | some e => simp at ha

theorem run_funs_append_err (a b : List (ConfigFun α)) (h h₁ : Host α)
    (e : PyErr) (ha : run_funs a h = (h₁, some e)) :
    run_funs (a ++ b) h = (h₁, some e) := by
  induction a generalizing h with
  | nil => simp [run_funs] at ha
  | cons f fs ih =>
    simp only [run_funs, List.cons_append] at ha ⊢
    cases hf : f h with
    | mk h' e? =>
      rw [hf] at ha
      cases e? with
      | none => exact ih h' ha
      | some e' => exact ha

/-- The nested apply loop is the sequential run of all collected functions,
in dict order and per-file definition order. -/
theorem apply_phase_eq_run (d : Fdict α) :
    ∀ h : Host α, apply_phase d h = run_funs ((d.map Prod.snd).flatten) h := by
  induction d with
  | nil => intro h; simp [apply_phase, run_funs]
  | cons kv rest ih =>
    intro h
    obtain ⟨k, funs⟩ := kv
    simp only [apply_phase, List.map_cons, List.flatten_cons]
    cases hr : run_funs funs h with
    | mk h' e? =>
      cases e? with
      | none =>
        change apply_phase rest h' = _
        rw [run_funs_append_ok funs _ h h' hr]
        exact ih h'
      | some e =>
        change (h', some e) = _
        rw [run_funs_append_err funs _ h h' e hr]

theorem run_funs_files (funs : List (ConfigFun α))
    (hp : ∀ g ∈ funs, ∀ h : Host α, ((g h).1).files = h.files) :
    ∀ h : Host α, ((run_funs funs h).1).files = h.files := by
  induction funs with
  | nil => intro h; simp [run_funs]
  | cons f fs ih =>
    intro h
    simp only [run_funs]
    cases hf : f h with
    | mk h' e? =>
      have hff : h'.files = h.files := by
        have := hp f (by simp) h
        rw [hf] at this
        exact this
      cases e? with
      | none =>
        rw [ih (fun g hg => hp g (by simp [hg]))]
        exact hff
      | some e => exact hff

/-! ## Load-loop lemmas -/

/-- Step lemma: hashing the head file fails (`IOError` from `open`). -/
theorem add_modules_loop_cons_none {fs : FileSys α} {dir f : String}
    {rest : List String} {host : Host α} {reg : Registry α} {acc : Fdict α}
    (hfs : fs (os_path_join dir f) = none) :
    add_modules_loop fs dir (f :: rest) host reg acc
      = (host, reg, acc, some .ioError) := by
  simp [add_modules_loop, calculate_hash, hfs]

/-- Step lemma: the head file's digest is already recorded, so it is
skipped entirely. -/
theorem add_modules_loop_cons_skip {fs : FileSys α} {dir f : String}
    {rest : List String} {host : Host α} {reg : Registry α} {acc : Fdict α}
    {fd : FileData α} (hfs : fs (os_path_join dir f) = some fd)
    (hmem : calculate_hash_content fd.content ∈ host.files) :
    add_modules_loop fs dir (f :: rest) host reg acc
      = add_modules_loop fs dir rest host reg acc := by
  simp [add_modules_loop, calculate_hash, hfs, hmem]

/-- Step lemma: the head file loads but its execution raises; the loop
stops before appending the digest, leaving the raise-time registrations in
the registry. -/
theorem add_modules_loop_cons_raise {fs : FileSys α} {dir f : String}
    {rest : List String} {host : Host α} {reg : Registry α} {acc : Fdict α}
    {fd : FileData α} (hfs : fs (os_path_join dir f) = some fd)
    (hmem : calculate_hash_content fd.content ∉ host.files)
    (hr : fd.raises = true) :
    add_modules_loop fs dir (f :: rest) host reg acc
      = (host, fd.funs, acc, some .loadError) := by
  simp [add_modules_loop, calculate_hash, hfs, hmem, import_from_filepath,
    hr, exec_registrations_eq]

/-- Step lemma: the head file loads successfully; its functions go into the
dict, its digest is appended, and the registry is left cleared. -/
theorem add_modules_loop_cons_load {fs : FileSys α} {dir f : String}
    {rest : List String} {host : Host α} {reg : Registry α} {acc : Fdict α}
    {fd : FileData α} (hfs : fs (os_path_join dir f) = some fd)
    (hmem : calculate_hash_content fd.content ∉ host.files)
    (hr : fd.raises = false) :
    add_modules_loop fs dir (f :: rest) host reg acc
      = add_modules_loop fs dir rest
          { host with files := host.files ++ [calculate_hash_content fd.content] }
          [] (dictInsert (os_path_join dir f) fd.funs acc) := by
  simp [add_modules_loop, calculate_hash, hfs, hmem, import_from_filepath,
    hr, exec_registrations_eq]

theorem loadedFiles_cons_none {fs : FileSys α} {dir f : String}
    {rest : List String} {seen : List String}
    (hfs : fs (os_path_join dir f) = none) :
    loadedFiles fs dir seen (f :: rest) = [] := by
  simp [loadedFiles, hfs]

theorem loadedFiles_cons_skip {fs : FileSys α} {dir f : String}
    {rest : List String} {seen : List String} {fd : FileData α}
    (hfs : fs (os_path_join dir f) = some fd)
    (hmem : calculate_hash_content fd.content ∈ seen) :
    loadedFiles fs dir seen (f :: rest) = loadedFiles fs dir seen rest := by
  simp [loadedFiles, hfs, hmem]

theorem loadedFiles_cons_raise {fs : FileSys α} {dir f : String}
    {rest : List String} {seen : List String} {fd : FileData α}
    (hfs : fs (os_path_join dir f) = some fd)
    (hmem : calculate_hash_content fd.content ∉ seen)
    (hr : fd.raises = true) :
    loadedFiles fs dir seen (f :: rest) = [] := by
  simp [loadedFiles, hfs, hmem, hr]

theorem loadedFiles_cons_load {fs : FileSys α} {dir f : String}
    {rest : List String} {seen : List String} {fd : FileData α}
    (hfs : fs (os_path_join dir f) = some fd)
    (hmem : calculate_hash_content fd.content ∉ seen)
    (hr : fd.raises = false) :
    loadedFiles fs dir seen (f :: rest)
      = (os_path_join dir f, calculate_hash_content fd.content, fd.funs)
          :: loadedFiles fs dir (seen ++ [calculate_hash_content fd.content])
              rest := by
  simp [loadedFiles, hfs, hmem, hr]

/-- The load loop never invokes a configuration function: the host's domain
state is untouched, and its digest list is extended by exactly the digests
of the files the walk loads. -/
theorem add_modules_loop_state_files (fs : FileSys α) (dir : String)
    (files : List String) :
    ∀ (host : Host α) (reg : Registry α) (acc : Fdict α),
      ((add_modules_loop fs dir files host reg acc).1).state = host.state ∧
      ((add_modules_loop fs dir files host reg acc).1).files
        = host.files
          ++ (loadedFiles fs dir host.files files).map (fun x => x.2.1) := by
  induction files with
  | nil => intro host reg acc; simp [add_modules_loop, loadedFiles]
  | cons f rest ih =>
    intro host reg acc
    cases hfs : fs (os_path_join dir f) with
    | none =>
      rw [add_modules_loop_cons_none hfs, loadedFiles_cons_none hfs]
      simp
    | some fd =>
      by_cases hmem : calculate_hash_content fd.content ∈ host.files
      · rw [add_modules_loop_cons_skip hfs hmem, loadedFiles_cons_skip hfs hmem]
        exact ih host reg acc
      · cases hr : fd.raises with
        | true =>
          rw [add_modules_loop_cons_raise hfs hmem hr,
            loadedFiles_cons_raise hfs hmem hr]
          simp
        | false =>
          rw [add_modules_loop_cons_load hfs hmem hr,
            loadedFiles_cons_load hfs hmem hr]
          have h2 := ih
            { host with files := host.files ++ [calculate_hash_content fd.content] }
            ([] : Registry α) (dictInsert (os_path_join dir f) fd.funs acc)
          refine ⟨h2.1, ?_⟩
          rw [h2.2]
          simp

/-- After a successful run of the load loop, every listed file exists and
its digest is in the resulting host's digest list. -/
theorem add_modules_loop_success_mem (fs : FileSys α) (dir : String)
    (files : List String) :
    ∀ (host : Host α) (reg : Registry α) (acc : Fdict α) (h' : Host α)
      (r' : Registry α) (acc' : Fdict α),
      add_modules_loop fs dir files host reg acc = (h', r', acc', none) →
      ∀ g ∈ files, ∃ fd, fs (os_path_join dir g) = some fd ∧
        calculate_hash_content fd.content ∈ h'.files := by
  induction files with
  | nil =>
    intro _ _ _ _ _ _ _ g hg
    simp at hg
  | cons f rest ih =>
    intro host reg acc h' r' acc' hloop g hg
    cases hfs : fs (os_path_join dir f) with
    | none =>
      rw [add_modules_loop_cons_none hfs] at hloop
      simp at hloop
    | some fd =>
      by_cases hmem : calculate_hash_content fd.content ∈ host.files
      · rw [add_modules_loop_cons_skip hfs hmem] at hloop
        rcases List.mem_cons.mp hg with hgf | hgrest
        · rw [hgf]
          refine ⟨fd, hfs, ?_⟩
          have hsf := (add_modules_loop_state_files fs dir rest host reg acc).2
          rw [hloop] at hsf
          simp only [] at hsf
          rw [hsf]
          exact List.mem_append_left _ hmem
        · exact ih host reg acc h' r' acc' hloop g hgrest
      · cases hr : fd.raises with
        | true =>
          rw [add_modules_loop_cons_raise hfs hmem hr] at hloop
          simp at hloop
        | false =>
          rw [add_modules_loop_cons_load hfs hmem hr] at hloop
          rcases List.mem_cons.mp hg with hgf | hgrest
          · rw [hgf]
            refine ⟨fd, hfs, ?_⟩
            have hsf := (add_modules_loop_state_files fs dir rest
              { host with files := host.files ++ [calculate_hash_content fd.content] }
              ([] : Registry α) (dictInsert (os_path_join dir f) fd.funs acc)).2
            rw [hloop] at hsf
            simp only [] at hsf
            rw [hsf]
            simp
          · exact ih _ _ _ h' r' acc' hloop g hgrest

/-- When every listed file's digest is already recorded, the loop skips
everything: no load, no registry change, no dict entry, no error. -/
theorem add_modules_loop_skip_all (fs : FileSys α) (dir : String)
    (files : List String) :
    ∀ (host : Host α) (reg : Registry α) (acc : Fdict α),
      (∀ g ∈ files, ∃ fd, fs (os_path_join dir g) = some fd ∧
          calculate_hash_content fd.content ∈ host.files) →
      add_modules_loop fs dir files host reg acc = (host, reg, acc, none) := by
  induction files with
  | nil => intro host reg acc _; simp [add_modules_loop]
  | cons f rest ih =>
    intro host reg acc hall
    obtain ⟨fd, hfd, hmem⟩ := hall f (by simp)
    rw [add_modules_loop_cons_skip hfd hmem]
    exact ih host reg acc (fun g hg => hall g (by simp [hg]))

/-- Invariant of the dict accumulator: every key already present was loaded
from an existing file whose digest is already recorded. -/
def accInv (fs : FileSys α) (seen : List String) (acc : Fdict α) : Prop :=
  ∀ kv ∈ acc, ∃ fd, fs kv.1 = some fd ∧
    calculate_hash_content fd.content ∈ seen

/-- Under the accumulator invariant, every dict assignment in the loop hits
a fresh key, so the dict grows by appending the loaded files in order. -/
theorem add_modules_loop_acc (fs : FileSys α) (dir : String)
    (files : List String) :
    ∀ (host : Host α) (reg : Registry α) (acc : Fdict α),
      accInv fs host.files acc →
      (add_modules_loop fs dir files host reg acc).2.2.1
        = acc ++ (loadedFiles fs dir host.files files).map
            (fun x => (x.1, x.2.2)) := by
  induction files with
  | nil => intro host reg acc _; simp [add_modules_loop, loadedFiles]
  | cons f rest ih =>
    intro host reg acc hinv
    cases hfs : fs (os_path_join dir f) with
    | none =>
      rw [add_modules_loop_cons_none hfs, loadedFiles_cons_none hfs]
      simp
    | some fd =>
      by_cases hmem : calculate_hash_content fd.content ∈ host.files
      · rw [add_modules_loop_cons_skip hfs hmem, loadedFiles_cons_skip hfs hmem]
        exact ih host reg acc hinv
      · cases hr : fd.raises with
        | true =>
          rw [add_modules_loop_cons_raise hfs hmem hr,
            loadedFiles_cons_raise hfs hmem hr]
          simp
        | false =>
          have hfresh : os_path_join dir f ∉ acc.map Prod.fst := by
            intro hk
            obtain ⟨kv, hkv, hk1⟩ := List.mem_map.mp hk
            obtain ⟨fd2, hfd2, hmem2⟩ := hinv kv hkv
            rw [hk1, hfs] at hfd2
            cases hfd2
            exact hmem hmem2
          have hinv2 : accInv fs
              (host.files ++ [calculate_hash_content fd.content])
              (dictInsert (os_path_join dir f) fd.funs acc) := by
            intro kv hkv
            rw [dictInsert_of_notMem _ _ _ hfresh] at hkv
            rcases List.mem_append.mp hkv with hold | hnew
            · obtain ⟨fd2, hfd2, hmem2⟩ := hinv kv hold
              exact ⟨fd2, hfd2, List.mem_append_left _ hmem2⟩
            · rw [List.mem_singleton] at hnew
              subst hnew
              exact ⟨fd, hfs, List.mem_append_right _ (by simp)⟩
          rw [add_modules_loop_cons_load hfs hmem hr,
            loadedFiles_cons_load hfs hmem hr]
          rw [ih _ ([] : Registry α) _ hinv2,
            dictInsert_of_notMem _ _ _ hfresh]
          simp

/-- Every entry the spec-side walk emits comes from an existing file: its
digest and functions are that file's. -/
theorem loadedFiles_spec (fs : FileSys α) (dir : String) (files : List String) :
    ∀ seen : List String, ∀ x ∈ loadedFiles fs dir seen files,
      ∃ fd, fs x.1 = some fd ∧ x.2.1 = calculate_hash_content fd.content ∧
        x.2.2 = fd.funs := by
  induction files with
  | nil => intro seen x hx; simp [loadedFiles] at hx
  | cons f rest ih =>
    intro seen x hx
    cases hfs : fs (os_path_join dir f) with
    | none =>
      rw [loadedFiles_cons_none hfs] at hx
      simp at hx
    | some fd =>
      by_cases hmem : calculate_hash_content fd.content ∈ seen
      · rw [loadedFiles_cons_skip hfs hmem] at hx
        exact ih seen x hx
      · cases hr : fd.raises with
        | true =>
          rw [loadedFiles_cons_raise hfs hmem hr] at hx
          simp at hx
        | false =>
          rw [loadedFiles_cons_load hfs hmem hr] at hx
          rcases List.mem_cons.mp hx with hx | hx
          · rw [hx]
            exact ⟨fd, hfs, rfl, rfl⟩
          · exact ih _ x hx

/-- Unfolding `add_modules` when the load loop succeeds. -/
theorem add_modules_of_loop_ok (fs : FileSys α) (dir : String) (host : Host α)
    (files : List String) (reg : Registry α) (hL : Host α) (rL : Registry α)
    (acc : Fdict α)
    (hloop : add_modules_loop fs dir files host reg [] = (hL, rL, acc, none)) :
    add_modules fs dir host files reg
      = ((apply_phase acc hL).1, rL, (apply_phase acc hL).2) := by
  rw [add_modules, hloop]

/-- Unfolding `add_modules` when the load loop raises. -/
theorem add_modules_of_loop_err (fs : FileSys α) (dir : String) (host : Host α)
    (files : List String) (reg : Registry α) (h' : Host α) (r' : Registry α)
    (acc : Fdict α) (e : PyErr)
    (hloop : add_modules_loop fs dir files host reg [] = (h', r', acc, some e)) :
    add_modules fs dir host files reg = (h', r', some e) := by
  rw [add_modules, hloop]

/-- If every function in the dict preserves the digest list, the apply
phase preserves it (even when a function raises part-way). -/
theorem apply_phase_files (d : Fdict α)
    (hp : ∀ kv ∈ d, ∀ g ∈ kv.2, ∀ h : Host α, ((g h).1).files = h.files) :
    ∀ h : Host α, ((apply_phase d h).1).files = h.files := by
  intro h
  rw [apply_phase_eq_run]
  refine run_funs_files _ ?_ h
  intro g hg hh
  obtain ⟨l, hl, hgl⟩ := List.mem_flatten.mp hg
  obtain ⟨kv, hkv, hkvl⟩ := List.mem_map.mp hl
  exact hp kv hkv g (by rw [hkvl]; exact hgl) hh

/-- `add_modules` on one already-applied file: skipped entirely. -/
theorem add_modules_single_skip (fs : FileSys α) (dir : String)
    (host : Host α) (p : String) (reg : Registry α) (fd : FileData α)
    (hfs : fs (os_path_join dir p) = some fd)
    (hmem : calculate_hash_content fd.content ∈ host.files) :
    add_modules fs dir host [p] reg = (host, reg, none) := by
  have hl : add_modules_loop fs dir [p] host reg [] = (host, reg, [], none) := by
    rw [add_modules_loop_cons_skip hfs hmem]
    simp [add_modules_loop]
  rw [add_modules_of_loop_ok fs dir host [p] reg host reg [] hl]
  simp [apply_phase]

/-- `add_modules` on one fresh, loadable file: the digest is appended and
then the file's functions run on the updated host. -/
theorem add_modules_single_load (fs : FileSys α) (dir : String)
    (host : Host α) (p : String) (reg : Registry α) (fd : FileData α)
    (hfs : fs (os_path_join dir p) = some fd)
    (hmem : calculate_hash_content fd.content ∉ host.files)
    (hr : fd.raises = false) :
    add_modules fs dir host [p] reg
      = ((run_funs fd.funs
            { host with files := host.files ++ [calculate_hash_content fd.content] }).1,
         [],
         (run_funs fd.funs
            { host with files := host.files ++ [calculate_hash_content fd.content] }).2) := by
  have hl : add_modules_loop fs dir [p] host reg []
      = ({ host with files := host.files ++ [calculate_hash_content fd.content] },
         [], [(os_path_join dir p, fd.funs)], none) := by
    rw [add_modules_loop_cons_load hfs hmem hr]
    simp [add_modules_loop, dictInsert]
  rw [add_modules_of_loop_ok fs dir host [p] reg _ [] _ hl]
  cases hrun : run_funs fd.funs
      { host with files := host.files ++ [calculate_hash_content fd.content] } with
  | mk h₂ e₂ => cases e₂ <;> simp [apply_phase, hrun]

/-! ## Attribute-locking lemmas -/

theorem setattr_ok_of_hasattr (o : PyObj) (k : String) (v : PyVal)
    (h : hasattr o k = true) : (setattr o k v).isOk = true := by
  simp [setattr, h, Except.isOk, Except.toBool]

theorem setattr_err_of_locked (o : PyObj) (k : String) (v : PyVal)
    (hl : getattr_locked o = true) (h : hasattr o k = false) :
    setattr o k v = .error .attributeError := by
  simp [setattr, hl, h]

theorem setattr_ok_elim (o o' : PyObj) (k : String) (v : PyVal)
    (h : setattr o k v = .ok o') :
    o' = { o with attrs := dictInsert k v o.attrs } := by
  by_cases hc : getattr_locked o && !hasattr o k
  · simp [setattr, hc] at h
  · simp [setattr, hc] at h
    exact h.symm

/-- The `__init__` phase of construction: run the assignments in order. -/
def initFold (init : List (String × PyVal)) (o₀ : PyObj) : Except PyErr PyObj :=
  init.foldlM (fun o kv => setattr o kv.1 kv.2) o₀

theorem constructLocked_eq (cls : List String)
    (init : List (String × PyVal)) :
    constructLocked cls init
      = initFold init (PyObj.mk cls []) >>= fun o =>
          setattr o "_locked" (.vBool true) := rfl

theorem initFold_cls (init : List (String × PyVal)) :
    ∀ (o₀ o₁ : PyObj), initFold init o₀ = .ok o₁ → o₁.cls = o₀.cls := by
  induction init with
  | nil =>
    intro o₀ o₁ h
    simp [initFold, pure, Except.pure] at h
    rw [← h]
  | cons kv t ih =>
    intro o₀ o₁ h
    rw [initFold, List.foldlM_cons] at h
    cases hs : setattr o₀ kv.1 kv.2 with
    | error e => rw [hs] at h; simp [Bind.bind, Except.bind] at h
    | ok o' =>
      rw [hs] at h
      simp only [Bind.bind, Except.bind] at h
      rw [ih o' o₁ h, setattr_ok_elim o₀ o' kv.1 kv.2 hs]

theorem initFold_lookup_isSome (init : List (String × PyVal)) :
    ∀ (o₀ o₁ : PyObj) (k : String), initFold init o₀ = .ok o₁ →
      (dictLookup k o₀.attrs).isSome = true →
      (dictLookup k o₁.attrs).isSome = true := by
  induction init with
  | nil =>
    intro o₀ o₁ k h hk
    simp [initFold, pure, Except.pure] at h
    rw [← h]
    exact hk
  | cons kv t ih =>
    intro o₀ o₁ k h hk
    rw [initFold, List.foldlM_cons] at h
    cases hs : setattr o₀ kv.1 kv.2 with
    | error e => rw [hs] at h; simp [Bind.bind, Except.bind] at h
    | ok o' =>
      rw [hs] at h
      simp only [Bind.bind, Except.bind] at h
      refine ih o' o₁ k h ?_
      rw [setattr_ok_elim o₀ o' kv.1 kv.2 hs]
      exact dictLookup_insert_isSome k kv.1 kv.2 o₀.attrs hk

theorem initFold_mem_isSome (init : List (String × PyVal)) :
    ∀ (o₀ o₁ : PyObj), initFold init o₀ = .ok o₁ →
      ∀ k ∈ init.map Prod.fst, (dictLookup k o₁.attrs).isSome = true := by
  induction init with
  | nil => intro o₀ o₁ _ k hk; simp at hk
  | cons kv t ih =>
    intro o₀ o₁ h k hk
    rw [initFold, List.foldlM_cons] at h
    cases hs : setattr o₀ kv.1 kv.2 with
    | error e => rw [hs] at h; simp [Bind.bind, Except.bind] at h
    | ok o' =>
      rw [hs] at h
      simp only [Bind.bind, Except.bind] at h
      rcases List.mem_cons.mp hk with hk1 | hk2
      · refine initFold_lookup_isSome t o' o₁ k h ?_
        rw [setattr_ok_elim o₀ o' kv.1 kv.2 hs, hk1]
        simp [dictLookup_insert_self]
      · exact ih o' o₁ h k hk2

/-- A completed construction yields an object of the given class that is
locked and holds every attribute `__init__` assigned. -/
theorem constructLocked_ok (cls : List String) (init : List (String × PyVal))
    (o : PyObj) (h : constructLocked cls init = .ok o) :
    o.cls = cls ∧ getattr_locked o = true ∧
      ∀ k ∈ init.map Prod.fst, (dictLookup k o.attrs).isSome = true := by
  rw [constructLocked_eq] at h
  cases hf : initFold init (PyObj.mk cls []) with
  | error e => rw [hf] at h; simp [Bind.bind, Except.bind] at h
  | ok o₁ =>
    rw [hf] at h
    simp only [Bind.bind, Except.bind] at h
    have ho : o = { o₁ with attrs := dictInsert "_locked" (.vBool true) o₁.attrs } :=
      setattr_ok_elim o₁ o "_locked" (.vBool true) h
    refine ⟨?_, ?_, ?_⟩
    · rw [ho]
      exact initFold_cls init _ o₁ hf
    · rw [ho]
      simp [getattr_locked, dictLookup_insert_self, truthy]
    · intro k hk
      rw [ho]
      exact dictLookup_insert_isSome k _ _ _
        (initFold_mem_isSome init _ o₁ hf k hk)

/-! ## `module_name` lemmas -/

theorem splitOnChar_ne_nil (sep : Char) (l : List Char) :
    splitOnChar sep l ≠ [] := by
  cases l with
  | nil => simp [splitOnChar]
  | cons c cs =>
    simp only [splitOnChar]
    cases h : splitOnChar sep cs with
    | nil => simp
    | cons hd tl => by_cases hc : c = sep <;> simp [hc]

theorem splitOnChar_append (sep : Char) (a b : List Char) :
    splitOnChar sep (a ++ sep :: b)
      = splitOnChar sep a ++ splitOnChar sep b := by
  induction a with
  | nil =>
    cases hb : splitOnChar sep b with
    | nil => exact absurd hb (splitOnChar_ne_nil sep b)
    | cons hd tl => simp [splitOnChar, hb]
  | cons c a' ih =>
    cases ha : splitOnChar sep a' with
    | nil => exact absurd ha (splitOnChar_ne_nil sep a')
    | cons hd tl =>
      by_cases hc : c = sep <;>
        simp [splitOnChar, ih, ha, hc]

theorem getLastD_append_of_ne_nil (x : List γ) :
    ∀ (y : List γ) (d : γ), y ≠ [] → (x ++ y).getLastD d = y.getLastD d := by
  induction x with
  | nil => intro y d _; rfl
  | cons c x' ih =>
    intro y d hy
    rw [List.cons_append, List.getLastD_cons, ih y c hy]
    cases y with
    | nil => exact absurd rfl hy
    | cons b y' => rw [List.getLastD_cons, List.getLastD_cons]

/-- The module identifier depends only on the part of the path after the
last `/`: prefixing any directory leaves it unchanged. -/
theorem module_name_append (d f : String) :
    module_name (d ++ "/" ++ f) = module_name f := by
  have hdata : (d ++ "/" ++ f).data = d.data ++ '/' :: f.data := by
    have h1 : "/".data = ['/'] := rfl
    rw [String.data_append, String.data_append, h1, List.append_assoc,
      List.singleton_append]
  rw [module_name, module_name, hdata, splitOnChar_append,
    getLastD_append_of_ne_nil _ _ _ (splitOnChar_ne_nil '/' f.data)]

/-! ## Concrete fixtures used by witnesses and counterexamples -/

/-- A configuration function that sets the host's domain state to 1. -/
def setOne : ConfigFun Nat := fun h => ({ h with state := 1 }, none)

/-- A configuration function that sets the host's domain state to 2. -/
def setTwo : ConfigFun Nat := fun h => ({ h with state := 2 }, none)

/-- A configuration function that raises without touching the host. -/
def raiseFun : ConfigFun Nat := fun h => (h, some .funcError)

def fileA : FileData Nat := ⟨[1], [setOne], false⟩

def fileB : FileData Nat := ⟨[2], [setTwo], false⟩

/-- A file that registers one function and then raises while executing. -/
def fileX : FileData Nat := ⟨[3], [setOne], true⟩

/-- A file that loads fine but whose single function raises when applied. -/
def fileR : FileData Nat := ⟨[9], [raiseFun], false⟩

def fs1 : FileSys Nat := fun p => if p = "cfg/a.py" then some fileA else none

/-- The same path as `fs1`'s file but with different bytes and functions:
the filesystem after the file changed on disk. -/
def fs2 : FileSys Nat := fun p => if p = "cfg/a.py" then some fileB else none

def fsAB : FileSys Nat := fun p =>
  if p = "cfg/a.py" then some fileA
  else if p = "cfg/b.py" then some fileB else none

def fsX : FileSys Nat := fun p => if p = "cfg/x.py" then some fileX else none

def fsR : FileSys Nat := fun p => if p = "cfg/r.py" then some fileR else none

/-- The `base()` instance as built by the metaclass: `__files__` from
`__init__`, then the `_locked` flag. -/
def basePy : PyObj :=
  PyObj.mk baseCls [("__files__", .vList []), ("_locked", .vBool true)]

/-! ## Claim C3 -/

/-- **C3, counterexample.**  The claim says that after construction,
`setattr` raises `AttributeError` for *every* name not set during
construction.  On a freshly constructed `base()` instance the name
`"add_modules"` was never set during construction (`__init__` set
`__files__`, the metaclass set `_locked`), yet `setattr` succeeds for it:
`__setattr__` tests `hasattr`, which also sees names defined on the class,
such as the method `add_modules`. -/
theorem claim3_counterexample :
    constructLocked baseCls baseInit = .ok basePy ∧
    (setattr basePy "add_modules" (.vNat 7)).isOk = true ∧
    "add_modules" ∉ baseInit.map Prod.fst ++ ["_locked"] :=
  ⟨rfl, rfl, by decide⟩

/-- **C3, amended.**  After construction of any LockedObject-derived
instance: every attribute name assigned during construction can be set
again, with any new value or type; and `setattr` raises `AttributeError`
exactly for the names absent from both the instance and its class
(`hasattr` false).  Names merely defined on the class are therefore also
settable even though they were never set during construction. -/
theorem claim3_lock_behaviour (cls : List String)
    (init : List (String × PyVal)) (o : PyObj)
    (hc : constructLocked cls init = .ok o) :
    (∀ k ∈ init.map Prod.fst, ∀ v₂ : PyVal, (setattr o k v₂).isOk = true) ∧
    (∀ (k : String) (v : PyVal), hasattr o k = false →
      setattr o k v = .error .attributeError) := by
  obtain ⟨_, hlock, hmem⟩ := constructLocked_ok cls init o hc
  refine ⟨?_, ?_⟩
  · intro k hk v₂
    apply setattr_ok_of_hasattr
    simp [hasattr, hmem k hk]
  · intro k v hnot
    exact setattr_err_of_locked o k v hlock hnot

/-- Witness for C3's amended theorem on the concrete `base()` instance:
`__files__` (set during construction) is reassignable to a different type,
and a name absent from instance and class raises. -/
theorem claim3_witness :
    (setattr basePy "__files__" (PyVal.vNat 3)).isOk = true ∧
    setattr basePy "someNewAttr" (PyVal.vNat 3) = .error .attributeError :=
  ⟨(claim3_lock_behaviour baseCls baseInit basePy rfl).1 "__files__"
      (by decide) (PyVal.vNat 3),
   (claim3_lock_behaviour baseCls baseInit basePy rfl).2 "someNewAttr"
      (PyVal.vNat 3) (by decide)⟩

/-! ## Claim C10 -/

/-- **C10.**  After locking, `setattr` succeeds for every name with
`hasattr` true — including names defined on the class that were never
assigned on the instance — and raises `AttributeError` exactly for names
absent from both the instance and its class. -/
theorem claim10_hasattr_semantics (cls : List String)
    (init : List (String × PyVal)) (o : PyObj)
    (hc : constructLocked cls init = .ok o) (k : String) (v : PyVal) :
    (hasattr o k = true → (setattr o k v).isOk = true) ∧
    (k ∈ cls → (setattr o k v).isOk = true) ∧
    (hasattr o k = false → setattr o k v = .error .attributeError) := by
  obtain ⟨hcls, hlock, _⟩ := constructLocked_ok cls init o hc
  refine ⟨fun h => setattr_ok_of_hasattr o k v h, ?_,
    fun h => setattr_err_of_locked o k v hlock h⟩
  intro hkc
  apply setattr_ok_of_hasattr
  simp [hasattr, hcls, hkc]

/-- Witness for C10 on the concrete `base()` instance: the class-level
method name `add_modules`, never assigned on the instance, is settable;
a name absent everywhere raises. -/
theorem claim10_witness :
    (setattr basePy "add_modules" (PyVal.vStr "patched")).isOk = true ∧
    setattr basePy "someNewAttr" (PyVal.vNat 0) = .error .attributeError :=
  ⟨(claim10_hasattr_semantics baseCls baseInit basePy rfl "add_modules"
      (PyVal.vStr "patched")).2.1 (by decide),
   (claim10_hasattr_semantics baseCls baseInit basePy rfl "someNewAttr"
      (PyVal.vNat 0)).2.2 (by decide)⟩

/-! ## Claim C7 -/

/-- **C7, counterexample.**  The loader's identifier
(`filepath.split('/')[-1].split('.')[0]`) is *not* unique per path: the
two distinct paths `/a/foo.py` and `/b/foo.py` yield the same identifier,
so loading the second overwrites the first's `sys.modules` entry instead
of avoiding a collision. -/
theorem claim7_counterexample :
    module_name "/a/foo.py" = module_name "/b/foo.py" ∧
    ("/a/foo.py" : String) ≠ "/b/foo.py" := by
  decide

/-- **C7, amended.**  The identifier is derived from the file name alone:
it depends only on the part of the path after the last `/` (and before the
first `.`), so prefixing any directory leaves it unchanged; distinct paths
are only distinguished when their trailing file names differ. -/
theorem claim7_identifier_from_filename (d f : String) :
    module_name (d ++ "/" ++ f) = module_name f :=
  module_name_append d f

/-! ## Claim C2 -/

/-- **C2, counterexample.**  A load of a file that registers one function
and then raises leaves the registry non-empty (length 1, not 0) when the
error propagates: the `l.clear()` after `exec_module` is never reached. -/
theorem claim2_counterexample :
    ((import_from_filepath fsX "cfg/x.py" []).1).length = 1 ∧
    (import_from_filepath fsX "cfg/x.py" []).2.isOk = false := by
  exact ⟨rfl, rfl⟩

/-- **C2, amended.**  After a load that returns normally the registry is
empty.  The incoming registry is always discarded at entry (`l.clear()`),
so a load's outcome is independent of previous registry state and no
registration leaks from one load into the next.  After a failed load,
however, the registry holds exactly the functions registered before the
raise (empty for a missing file or syntax error). -/
theorem claim2_registry_state (fs : FileSys α) (p : String)
    (reg : Registry α) :
    (∀ funs, (import_from_filepath fs p reg).2 = .ok funs →
      (import_from_filepath fs p reg).1 = []) ∧
    import_from_filepath fs p reg = import_from_filepath fs p [] ∧
    (∀ fd, fs p = some fd → fd.raises = true →
      (import_from_filepath fs p reg).1 = fd.funs) := by
  refine ⟨?_, rfl, ?_⟩
  · intro funs hok
    simp only [import_from_filepath] at hok ⊢
    cases hfs : fs p with
    | none => simp [hfs] at hok
    | some fd =>
      cases hr : fd.raises with
      | true => simp [hfs, hr] at hok
      | false => simp [hfs, hr]
  · intro fd hfd hr
    simp [import_from_filepath, hfd, hr, exec_registrations_eq]

/-- Witness for C2's amended theorem: the raising file from the
counterexample, with a stale registration in the incoming registry. -/
theorem claim2_witness :
    (import_from_filepath fsX "cfg/x.py" [setTwo]).1 = fileX.funs :=
  (claim2_registry_state fsX "cfg/x.py" [setTwo]).2.2 fileX rfl rfl

/-! ## Claim C6 -/

/-- **C6.**  `apply` on a single missing file raises `IOError` from the
hashing step, and the host — in particular its `appliedHashes` list — is
unchanged, as is the registry. -/
theorem claim6_missing_file (fs : FileSys α) (dir : String) (host : Host α)
    (p : String) (reg : Registry α)
    (hmiss : fs (os_path_join dir p) = none) :
    add_modules fs dir host [p] reg = (host, reg, some .ioError) :=
  add_modules_of_loop_err fs dir host [p] reg host reg [] .ioError
    (add_modules_loop_cons_none hmiss)

/-- Witness for C6: `fs1` has no file at `cfg/missing.cfg`. -/
theorem claim6_witness :
    add_modules fs1 "cfg" (Host.mk [] (0 : Nat)) ["missing.cfg"] []
      = (Host.mk [] (0 : Nat), [], some .ioError) :=
  claim6_missing_file fs1 "cfg" (Host.mk [] 0) "missing.cfg" [] rfl

/-! ## Claim C1 -/

/-- **C1, counterexample.**  The claim says that when the load of the N-th
file fails, the earlier files' functions have already been *applied*.  With
`cfg/a.py` loadable (its function sets the state to 1) and the second file
missing, the call fails with `IOError`, file 1's digest *is* recorded, but
the state is still 0: no function was applied — applying file 1's function
would have set it to 1. -/
theorem claim1_counterexample :
    (add_modules fs1 "cfg" (Host.mk [] (0 : Nat)) ["a.py", "missing.cfg"] []).2.2
      = some .ioError ∧
    ((add_modules fs1 "cfg" (Host.mk [] (0 : Nat)) ["a.py", "missing.cfg"] []).1).files
      = [calculate_hash_content fileA.content] ∧
    ((add_modules fs1 "cfg" (Host.mk [] (0 : Nat)) ["a.py", "missing.cfg"] []).1).state
      = 0 ∧
    ((setOne (Host.mk [calculate_hash_content fileA.content] (0 : Nat))).1).state
      = 1 :=
  ⟨rfl, rfl, rfl, rfl⟩

/-- **C1, amended.**  If the load phase fails at some file, the digests of
the files already loaded in that call are recorded on the host (and are not
rolled back) before the error propagates — but **no** configuration
function has been applied: the apply phase never runs, so the host's domain
state is exactly the initial one. -/
theorem claim1_partial_failure (fs : FileSys α) (dir : String)
    (host : Host α) (files : List String) (reg : Registry α) (h' : Host α)
    (r' : Registry α) (acc : Fdict α) (e : PyErr)
    (hloop : add_modules_loop fs dir files host reg [] = (h', r', acc, some e)) :
    add_modules fs dir host files reg = (h', r', some e) ∧
    h'.state = host.state ∧
    h'.files = host.files
      ++ (loadedFiles fs dir host.files files).map (fun x => x.2.1) := by
  have hsf := add_modules_loop_state_files fs dir files host reg []
  rw [hloop] at hsf
  exact ⟨add_modules_of_loop_err fs dir host files reg h' r' acc e hloop,
    hsf.1, hsf.2⟩

/-- Witness for C1's amended theorem at the counterexample input. -/
theorem claim1_witness :
    add_modules fs1 "cfg" (Host.mk [] (0 : Nat)) ["a.py", "missing.cfg"] []
      = (Host.mk [calculate_hash_content fileA.content] 0, [], some .ioError) ∧
    (Host.mk [calculate_hash_content fileA.content] (0 : Nat)).state
      = (Host.mk ([] : List String) (0 : Nat)).state ∧
    (Host.mk [calculate_hash_content fileA.content] (0 : Nat)).files
      = (Host.mk ([] : List String) (0 : Nat)).files
        ++ (loadedFiles fs1 "cfg" (Host.mk ([] : List String) (0 : Nat)).files
              ["a.py", "missing.cfg"]).map (fun x => x.2.1) :=
  claim1_partial_failure fs1 "cfg" (Host.mk [] 0) ["a.py", "missing.cfg"] []
    (Host.mk [calculate_hash_content fileA.content] 0) []
    [("cfg/a.py", fileA.funs)] .ioError rfl

/-! ## Claim C4 -/

/-- **C4.**  Idempotence: if `apply(host, [p])` succeeds, an identical
second call is a complete no-op for that file — the digest is already in
`appliedHashes`, so the file is skipped with no load and no side effect on
the host.  The hypothesis `hpres` states that the file's configuration
functions do not themselves rewrite `self.__files__`, the list the skip
test consults. -/
theorem claim4_idempotence (fs : FileSys α) (dir : String) (host : Host α)
    (p : String) (reg reg₂ : Registry α) (h₁ : Host α) (r₁ : Registry α)
    (hpres : ∀ fd, fs (os_path_join dir p) = some fd →
      ∀ g ∈ fd.funs, ∀ h : Host α, ((g h).1).files = h.files)
    (hfirst : add_modules fs dir host [p] reg = (h₁, r₁, none)) :
    add_modules fs dir h₁ [p] reg₂ = (h₁, reg₂, none) := by
  cases hfs : fs (os_path_join dir p) with
  | none =>
    rw [add_modules_of_loop_err fs dir host [p] reg host reg [] .ioError
      (add_modules_loop_cons_none hfs)] at hfirst
    simp at hfirst
  | some fd =>
    by_cases hmem : calculate_hash_content fd.content ∈ host.files
    · rw [add_modules_single_skip fs dir host p reg fd hfs hmem] at hfirst
      have hh : host = h₁ := congrArg Prod.fst hfirst
      rw [← hh]
      exact add_modules_single_skip fs dir host p reg₂ fd hfs hmem
    · cases hr : fd.raises with
      | true =>
        rw [add_modules_of_loop_err fs dir host [p] reg host fd.funs []
          .loadError (add_modules_loop_cons_raise hfs hmem hr)] at hfirst
        simp at hfirst
      | false =>
        rw [add_modules_single_load fs dir host p reg fd hfs hmem hr] at hfirst
        have h1 : (run_funs fd.funs
            { host with files :=
                host.files ++ [calculate_hash_content fd.content] }).1 = h₁ :=
          congrArg Prod.fst hfirst
        have hfiles : h₁.files
            = host.files ++ [calculate_hash_content fd.content] := by
          rw [← h1]
          exact run_funs_files fd.funs (hpres fd hfs) _
        have hmem₁ : calculate_hash_content fd.content ∈ h₁.files := by
          rw [hfiles]
          simp
        exact add_modules_single_skip fs dir h₁ p reg₂ fd hfs hmem₁

/-- Witness for C4: after a first successful application of `cfg/a.py`
(digest recorded, state set to 1 by its function), the identical second
call returns the host unchanged with no error. -/
theorem claim4_witness :
    add_modules fs1 "cfg"
        (Host.mk [calculate_hash_content fileA.content] (1 : Nat)) ["a.py"] []
      = (Host.mk [calculate_hash_content fileA.content] 1, [], none) :=
  claim4_idempotence fs1 "cfg" (Host.mk [] 0) "a.py" [] []
    (Host.mk [calculate_hash_content fileA.content] 1) []
    (by
      intro fd hfd g hg h
      have he : fs1 (os_path_join "cfg" "a.py") = some fileA := rfl
      rw [he] at hfd
      injection hfd with h2
      rw [← h2] at hg
      simp [fileA] at hg
      rw [hg]
      rfl)
    rfl

/-! ## Claim C5 -/

/-- **C5.**  When the load phase completes without error, `apply` equals:
first record every digest (the loop result `hL`), then — and only then —
run the collected functions, in the order the files were given and, within
each file, in definition order, each receiving the host as sole argument.
The function list is exactly the concatenation, in file order, of the
functions of the files the walk loaded. -/
theorem claim5_load_phase_then_apply_phase (fs : FileSys α) (dir : String)
    (host : Host α) (files : List String) (reg : Registry α) (hL : Host α)
    (rL : Registry α) (acc : Fdict α)
    (hloop : add_modules_loop fs dir files host reg [] = (hL, rL, acc, none)) :
    add_modules fs dir host files reg
      = ((run_funs (((loadedFiles fs dir host.files files).map
            (fun x => x.2.2)).flatten) hL).1, rL,
         (run_funs (((loadedFiles fs dir host.files files).map
            (fun x => x.2.2)).flatten) hL).2) := by
  have hacc := add_modules_loop_acc fs dir files host reg []
    (by intro kv hkv; simp at hkv)
  rw [hloop] at hacc
  have hacc2 : acc = (loadedFiles fs dir host.files files).map
      (fun x => (x.1, x.2.2)) := by
    simpa using hacc
  rw [add_modules_of_loop_ok fs dir host files reg hL rL acc hloop,
    apply_phase_eq_run, hacc2]
  have hcomp : (Prod.snd ∘ fun (x : String × String × List (ConfigFun α)) =>
      (x.1, x.2.2)) = fun x => x.2.2 := rfl
  simp [List.map_map, hcomp]

/-- Witness for C5: two files, each with one function; the collected run
applies them in the given file order on the host holding both digests. -/
theorem claim5_witness :
    add_modules fsAB "cfg" (Host.mk [] (0 : Nat)) ["a.py", "b.py"] []
      = ((run_funs (((loadedFiles fsAB "cfg"
            (Host.mk ([] : List String) (0 : Nat)).files
            ["a.py", "b.py"]).map (fun x => x.2.2)).flatten)
          (Host.mk [calculate_hash_content fileA.content,
            calculate_hash_content fileB.content] 0)).1, [],
         (run_funs (((loadedFiles fsAB "cfg"
            (Host.mk ([] : List String) (0 : Nat)).files
            ["a.py", "b.py"]).map (fun x => x.2.2)).flatten)
          (Host.mk [calculate_hash_content fileA.content,
            calculate_hash_content fileB.content] 0)).2) :=
  claim5_load_phase_then_apply_phase fsAB "cfg" (Host.mk [] 0)
    ["a.py", "b.py"] []
    (Host.mk [calculate_hash_content fileA.content,
      calculate_hash_content fileB.content] 0)
    []
    [("cfg/a.py", fileA.funs), ("cfg/b.py", fileB.funs)]
    rfl

/-! ## Claim C9 -/

/-- **C9.**  Every digest is appended before any configuration function is
invoked.  Consequently, even when a function raises during the apply phase,
the final host carries the full digest list `hL.files` of the load phase —
including digests of files whose functions never ran — and an identical
subsequent call skips every file, applying nothing and succeeding.  The
hypothesis `hpres` states that configuration functions do not rewrite
`self.__files__` themselves. -/
theorem claim9_digests_recorded_before_apply (fs : FileSys α) (dir : String)
    (host : Host α) (files : List String) (reg reg₂ : Registry α)
    (hL : Host α) (rL : Registry α) (acc : Fdict α)
    (hloop : add_modules_loop fs dir files host reg [] = (hL, rL, acc, none))
    (hpres : ∀ (p : String) (fd : FileData α), fs p = some fd →
      ∀ g ∈ fd.funs, ∀ h : Host α, ((g h).1).files = h.files) :
    ((add_modules fs dir host files reg).1).files = hL.files ∧
    add_modules fs dir ((add_modules fs dir host files reg).1) files reg₂
      = ((add_modules fs dir host files reg).1, reg₂, none) := by
  have hacc := add_modules_loop_acc fs dir files host reg []
    (by intro kv hkv; simp at hkv)
  rw [hloop] at hacc
  have hacc2 : acc = (loadedFiles fs dir host.files files).map
      (fun x => (x.1, x.2.2)) := by
    simpa using hacc
  have hpacc : ∀ kv ∈ acc, ∀ g ∈ kv.2, ∀ h : Host α,
      ((g h).1).files = h.files := by
    intro kv hkv g hg h
    rw [hacc2] at hkv
    obtain ⟨x, hx, hxkv⟩ := List.mem_map.mp hkv
    obtain ⟨fd, hfd, _, hfuns⟩ := loadedFiles_spec fs dir files host.files x hx
    rw [← hxkv] at hg
    rw [hfuns] at hg
    exact hpres x.1 fd hfd g hg h
  have hfiles1 : ((add_modules fs dir host files reg).1).files = hL.files := by
    rw [add_modules_of_loop_ok fs dir host files reg hL rL acc hloop]
    exact apply_phase_files acc hpacc hL
  refine ⟨hfiles1, ?_⟩
  have hallmem : ∀ g ∈ files, ∃ fd, fs (os_path_join dir g) = some fd ∧
      calculate_hash_content fd.content
        ∈ ((add_modules fs dir host files reg).1).files := by
    intro g hg
    obtain ⟨fd, hfd, hm⟩ := add_modules_loop_success_mem fs dir files host reg
      [] hL rL acc hloop g hg
    exact ⟨fd, hfd, by rw [hfiles1]; exact hm⟩
  have hskip := add_modules_loop_skip_all fs dir files
    ((add_modules fs dir host files reg).1) reg₂ [] hallmem
  rw [add_modules_of_loop_ok fs dir _ files reg₂ _ reg₂ [] hskip]
  simp [apply_phase]

/-- Witness for C9: a file whose single function raises during the apply
phase; its digest is recorded anyway, and the identical second call skips
the file and succeeds. -/
theorem claim9_witness :
    ((add_modules fsR "cfg" (Host.mk [] (0 : Nat)) ["r.py"] []).1).files
      = (Host.mk [calculate_hash_content fileR.content] (0 : Nat)).files ∧
    add_modules fsR "cfg"
        ((add_modules fsR "cfg" (Host.mk [] (0 : Nat)) ["r.py"] []).1)
        ["r.py"] []
      = ((add_modules fsR "cfg" (Host.mk [] (0 : Nat)) ["r.py"] []).1,
         [], none) :=
  claim9_digests_recorded_before_apply fsR "cfg" (Host.mk [] 0) ["r.py"]
    [] [] (Host.mk [calculate_hash_content fileR.content] 0) []
    [("cfg/r.py", fileR.funs)] rfl
    (by
      intro p fd hfd g hg h
      by_cases hp : p = "cfg/r.py"
      · rw [hp] at hfd
        have he : fsR "cfg/r.py" = some fileR := rfl
        rw [he] at hfd
        injection hfd with h2
        rw [← h2] at hg
        simp [fileR] at hg
        rw [hg]
        rfl
      · simp [fsR, hp] at hfd)

/-! ## Claim C8 -/

/-- **C8.**  The digest is a deterministic streaming hash of the file's
full byte content: reading in chunks of any positive size yields the same
hex digest as the source's 4096-byte chunking, because each chunk is fed to
the incremental SHA-256 (not hashed separately).  And if a file's bytes
change between two `apply` calls in a way that changes the SHA-256 digest
(the source, as its design notes say, treats collisions as impossible), the
second call does not skip the file: it loads it again and applies its (new)
functions, even though the path is unchanged. -/
theorem claim8_streaming_content_hash :
    (∀ (content : List Nat) (c₁ c₂ : Nat), c₁ ≠ 0 → c₂ ≠ 0 →
      hashWithChunk c₁ content = hashWithChunk c₂ content ∧
      hashWithChunk c₁ content = calculate_hash_content content) ∧
    (∀ (α : Type) (fs₁ fs₂ : FileSys α) (dir p : String) (host : Host α)
        (reg₁ reg₂ : Registry α) (fd₁ fd₂ : FileData α),
      fs₁ (os_path_join dir p) = some fd₁ →
      fs₂ (os_path_join dir p) = some fd₂ →
      fd₁.raises = false → fd₂.raises = false →
      calculate_hash_content fd₁.content ≠ calculate_hash_content fd₂.content →
      calculate_hash_content fd₁.content ∉ host.files →
      calculate_hash_content fd₂.content ∉ host.files →
      (∀ g ∈ fd₁.funs, ∀ h : Host α, ((g h).1).files = h.files) →
      add_modules fs₂ dir ((add_modules fs₁ dir host [p] reg₁).1) [p] reg₂
        = ((run_funs fd₂.funs
              { (add_modules fs₁ dir host [p] reg₁).1 with files :=
                  ((add_modules fs₁ dir host [p] reg₁).1).files
                    ++ [calculate_hash_content fd₂.content] }).1, [],
           (run_funs fd₂.funs
              { (add_modules fs₁ dir host [p] reg₁).1 with files :=
                  ((add_modules fs₁ dir host [p] reg₁).1).files
                    ++ [calculate_hash_content fd₂.content] }).2)) := by
  constructor
  · intro content c₁ c₂ h₁ h₂
    rw [hashWithChunk_eq c₁ h₁ content, hashWithChunk_eq c₂ h₂ content,
      calculate_hash_content_eq]
    exact ⟨rfl, rfl⟩
  · intro α fs₁ fs₂ dir p host reg₁ reg₂ fd₁ fd₂ hfs₁ hfs₂ hr₁ hr₂ hne
      hm₁ hm₂ hpres₁
    have hfirst := add_modules_single_load fs₁ dir host p reg₁ fd₁ hfs₁ hm₁ hr₁
    have hfiles₁ : ((add_modules fs₁ dir host [p] reg₁).1).files
        = host.files ++ [calculate_hash_content fd₁.content] := by
      rw [hfirst]
      exact run_funs_files fd₁.funs hpres₁ _
    have hm₂' : calculate_hash_content fd₂.content
        ∉ ((add_modules fs₁ dir host [p] reg₁).1).files := by
      rw [hfiles₁]
      intro hmem
      rcases List.mem_append.mp hmem with h | h
      · exact hm₂ h
      · rw [List.mem_singleton] at h
        exact hne h.symm
    exact add_modules_single_load fs₂ dir _ p reg₂ fd₂ hfs₂ hm₂' hr₂

/-- Witness for C8: chunk sizes 1 and 2 on a one-byte file agree with the
4096-byte digest; and after `cfg/a.py`'s bytes change from `fileA` to
`fileB` (different digests), the second call loads and applies `fileB`'s
function. -/
theorem claim8_witness :
    (hashWithChunk 1 [7] = hashWithChunk 2 [7] ∧
     hashWithChunk 1 [7] = calculate_hash_content [7]) ∧
    add_modules fs2 "cfg"
        ((add_modules fs1 "cfg" (Host.mk [] (0 : Nat)) ["a.py"] []).1)
        ["a.py"] []
      = ((run_funs fileB.funs
            { (add_modules fs1 "cfg" (Host.mk [] (0 : Nat)) ["a.py"] []).1
                with files :=
                ((add_modules fs1 "cfg" (Host.mk [] (0 : Nat)) ["a.py"] []).1).files
                  ++ [calculate_hash_content fileB.content] }).1, [],
         (run_funs fileB.funs
            { (add_modules fs1 "cfg" (Host.mk [] (0 : Nat)) ["a.py"] []).1
                with files :=
                ((add_modules fs1 "cfg" (Host.mk [] (0 : Nat)) ["a.py"] []).1).files
                  ++ [calculate_hash_content fileB.content] }).2) :=
  ⟨claim8_streaming_content_hash.1 [7] 1 2 (by decide) (by decide),
   claim8_streaming_content_hash.2 Nat fs1 fs2 "cfg" "a.py" (Host.mk [] 0)
     [] [] fileA fileB rfl rfl rfl rfl (by decide) (by simp) (by simp)
     (by
       intro g hg h
       simp [fileA] at hg
       rw [hg]
       rfl)⟩

end PyConfigFiles
